import Mathlib

/-!
Verification of the terminal calculator (src/calculator.py).

The embedding models the `Calculator` class: its symbol tables, the
tokenizer (`tokenize`, lines 42-51), the shunting-yard converter
(`infix_to_postfix`, lines 53-83, embedded as `toRPN`), the postfix
evaluator (`evaluate_postfix`, lines 85-109, embedded as `evalRPN`),
the token classifier (`is_number`, lines 111-117) and the entry point
(`calculate`, lines 119-140).

Python floats are modelled as rationals (ℚ).  Exact float arithmetic on
the small decimal literals exercised here coincides with rational
arithmetic; IEEE spellings such as inf and nan, and irrational results
of the transcendental library functions, fall outside the rational
model and are marked where they occur.  No claim depends on them.
-/

unseal Rat.add Rat.mul Rat.sub Rat.inv Rat.ofScientific

namespace TermCalc

/-- Faults raised inside the pipeline.  `zeroDivision` embeds Python's
ZeroDivisionError, `valueErr` embeds ValueError together with its message,
and `otherErr` embeds any other exception with its description; calculate
(lines 135-140) catches exactly these three categories in this order. -/
inductive CalcErr where
  | zeroDivision : CalcErr
  | valueErr : String → CalcErr
  | otherErr : String → CalcErr
deriving DecidableEq

/-- Numbers the formatter can return: `int(result)` when the float is
integral, otherwise the float `round(result, 10)` (lines 130-133). -/
inductive PyNum where
  | int : ℤ → PyNum
  | float : ℚ → PyNum
deriving DecidableEq

/-- Return type of `Calculator.calculate`, Python's `Union[float, str]`:
either a number or a human-readable error string. -/
inductive CalcOutput where
  | num : PyNum → CalcOutput
  | str : String → CalcOutput
deriving DecidableEq

/-- Whitespace recognised by Python's `str.strip()` (ASCII range:
space, tab, newline, vertical tab, form feed, carriage return). -/
def pySpace (c : Char) : Bool :=
  c == ' ' || c == Char.ofNat 9 || c == Char.ofNat 10 ||
  c == Char.ofNat 11 || c == Char.ofNat 12 || c == Char.ofNat 13

/-- The single-character operator alternative of the token regex,
`[+\-*/()^%]` (line 49). -/
def opChar (c : Char) : Bool :=
  c == '+' || c == '-' || c == '*' || c == '/' ||
  c == '(' || c == ')' || c == '^' || c == '%'

/-- Word characters, regex `\w` = `[a-zA-Z0-9_]`. -/
def wordChar (c : Char) : Bool := c.isAlphanum || c == '_'

/-- Identifier-start characters, regex `[a-zA-Z_]`. -/
def identStart (c : Char) : Bool := c.isAlpha || c == '_'

/-- Does `pat` occur at the head of the text?  Helper for `pyReplace`. -/
def startsWith : List Char → List Char → Bool
  | [], _ => true
  | _ :: _, [] => false
  | p :: ps, a :: as => p == a && startsWith ps as

/-- Scanner of Python's `str.replace(pat, rep)` (replace every
non-overlapping occurrence, scanning left to right).  `skip` counts
pattern characters still to be consumed after a match (the first matched
character is consumed by the branch itself). -/
def pyRepGo (pat rep : List Char) : Nat → List Char → List Char
  | _, [] => []
  | k + 1, _ :: as => pyRepGo pat rep k as
  | 0, a :: as =>
    if startsWith pat (a :: as) then rep ++ pyRepGo pat rep (pat.length - 1) as
    else a :: pyRepGo pat rep 0 as

/-- Python's `str.replace(pat, rep)` on character lists (for the nonempty
patterns used by the calculator). -/
def pyReplace (l pat rep : List Char) : List Char := pyRepGo pat rep 0 l

/-- Python's `str.strip()`: drop whitespace from both ends. -/
def pyStrip (l : List Char) : List Char :=
  ((l.dropWhile pySpace).reverse.dropWhile pySpace).reverse

/-- State of the left-to-right scan of the token regex
`(\d+\.?\d*|[+\-*/()^%]|\*\*|//|[a-zA-Z_]\w*)` (line 49): either between
tokens, inside the integer part of a number, inside its fractional part,
or inside an identifier.  Accumulated characters are kept reversed.
Note the alternation order of the source regex: the single-character
class is tried before the two-character alternatives, so `**` and `//`
always lex as two one-character tokens. -/
inductive LexMode where
  | start : LexMode
  | intPart : List Char → LexMode
  | fracPart : List Char → LexMode
  | ident : List Char → LexMode

/-- Emit the token accumulated in the current scanner state, if any. -/
def flushTok : LexMode → List String
  | LexMode.start => []
  | LexMode.intPart ds => [String.mk ds.reverse]
  | LexMode.fracPart ds => [String.mk ds.reverse]
  | LexMode.ident ds => [String.mk ds.reverse]

/-- Dispatch one character from between tokens: a digit opens a number,
an operator character is a token by itself, a letter or underscore opens
an identifier, and any other character is silently dropped (the regex
scan of `re.findall` skips characters that match no alternative). -/
def startStep (out : List String) (ch : Char) : LexMode × List String :=
  if ch.isDigit then (LexMode.intPart [ch], out)
  else if opChar ch then (LexMode.start, out ++ [String.mk [ch]])
  else if identStart ch then (LexMode.ident [ch], out)
  else (LexMode.start, out)

/-- One step of the scan: extend the current token when the character
fits its pattern (`\d+\.?\d*` allows one dot; `\w*` continues an
identifier), otherwise flush it and re-dispatch the character. -/
def lexStep (s : LexMode × List String) (ch : Char) : LexMode × List String :=
  match s with
  | (LexMode.start, out) => startStep out ch
  | (LexMode.intPart ds, out) =>
    if ch.isDigit then (LexMode.intPart (ch :: ds), out)
    else if ch == '.' then (LexMode.fracPart (ch :: ds), out)
    else startStep (out ++ flushTok (LexMode.intPart ds)) ch
  | (LexMode.fracPart ds, out) =>
    if ch.isDigit then (LexMode.fracPart (ch :: ds), out)
    else startStep (out ++ flushTok (LexMode.fracPart ds)) ch
  | (LexMode.ident ds, out) =>
    if wordChar ch then (LexMode.ident (ch :: ds), out)
    else startStep (out ++ flushTok (LexMode.ident ds)) ch

/-- `re.findall(pattern, text)` for the token regex of line 49, as the
left-to-right scan `lexStep` folded over the text. -/
def scanTokens (l : List Char) : List String :=
  let s := l.foldl lexStep (LexMode.start, [])
  s.2 ++ flushTok s.1

/-- Numeric value of a digit string. -/
def digitsVal (l : List Char) : ℕ :=
  l.foldl (fun a c => 10 * a + (c.toNat - 48)) 0

/-- Value of an unsigned decimal literal: digits, an optional dot, and
optional fractional digits, with at least one digit in total. -/
def pyFloatCore (l : List Char) : Option ℚ :=
  let d1 := l.takeWhile Char.isDigit
  let r1 := l.dropWhile Char.isDigit
  match r1 with
  | [] => if d1.isEmpty then none else some ((digitsVal d1 : ℚ))
  | c :: r2 =>
    if c == '.' then
      let d2 := r2.takeWhile Char.isDigit
      let r3 := r2.dropWhile Char.isDigit
      if r3.isEmpty then
        if d1.isEmpty && d2.isEmpty then none
        else some ((digitsVal d1 : ℚ) + (digitsVal d2 : ℚ) / (10 : ℚ) ^ d2.length)
      else none
    else none

/-- Python's `float(token)` on the token shapes the calculator can see:
an optional sign followed by a finite decimal literal, `none` when the
conversion raises ValueError.  Python additionally accepts exponent,
infinity and nan spellings; those denote non-rational floats, are outside
the rational model, and are exercised by no claim (after constant
substitution no token even contains the letter e). -/
def pyFloat (s : String) : Option ℚ :=
  match s.data with
  | [] => none
  | '-' :: r => (pyFloatCore r).map (fun q => -q)
  | '+' :: r => pyFloatCore r
  | l => pyFloatCore l

/-- `Calculator.is_number` (lines 111-117): does `float(token)` succeed? -/
def is_number (t : String) : Bool := (pyFloat t).isSome

/-- The lambda of the `+` entry (line 16). -/
def addQ (a b : ℚ) : Except CalcErr ℚ := Except.ok (a + b)

/-- The lambda of the `-` entry (line 17). -/
def subQ (a b : ℚ) : Except CalcErr ℚ := Except.ok (a - b)

/-- The lambda of the `*` entry (line 18). -/
def mulQ (a b : ℚ) : Except CalcErr ℚ := Except.ok (a * b)

/-- The lambda of the `/` entry (line 19): true float division; Python
raises ZeroDivisionError when the divisor is zero. -/
def divQ (a b : ℚ) : Except CalcErr ℚ :=
  if b = 0 then Except.error CalcErr.zeroDivision else Except.ok (a / b)

/-- The lambda of the `//` entry (line 20): float floor division
(truncating toward negative infinity); ZeroDivisionError on zero. -/
def fdivQ (a b : ℚ) : Except CalcErr ℚ :=
  if b = 0 then Except.error CalcErr.zeroDivision else Except.ok ((⌊a / b⌋ : ℤ) : ℚ)

/-- The lambda of the `%` entry (line 21): float modulo with the
floor-division sign convention; ZeroDivisionError on zero. -/
def modQ (a b : ℚ) : Except CalcErr ℚ :=
  if b = 0 then Except.error CalcErr.zeroDivision
  else Except.ok (a - b * ((⌊a / b⌋ : ℤ) : ℚ))

/-- The lambda of the `^` and `**` entries (lines 22-23), Python's
`x ** y` on floats, restricted to integral exponents: `0.0 ** n` with
`n < 0` raises ZeroDivisionError in Python.  A fractional exponent
yields an irrational (or complex) float outside the rational model; it
is reported as a generic fault here and is exercised by no claim. -/
def powQ (a b : ℚ) : Except CalcErr ℚ :=
  if b.den = 1 then
    if a = 0 ∧ b.num < 0 then Except.error CalcErr.zeroDivision
    else Except.ok (a ^ b.num)
  else Except.error (CalcErr.otherErr ("fractional exponent is outside the rational model"))

/-- Stand-in for `math.sin` (line 27), an external library primitive
returning an irrational float for almost every argument; it is outside
the rational model and no claim depends on its value. -/
def sinQ (_ : ℚ) : Except CalcErr ℚ :=
  Except.error (CalcErr.otherErr ("sin is outside the rational model"))

/-- Stand-in for `math.cos` (line 28); see `sinQ`. -/
def cosQ (_ : ℚ) : Except CalcErr ℚ :=
  Except.error (CalcErr.otherErr ("cos is outside the rational model"))

/-- Stand-in for `math.tan` (line 29); see `sinQ`. -/
def tanQ (_ : ℚ) : Except CalcErr ℚ :=
  Except.error (CalcErr.otherErr ("tan is outside the rational model"))

/-- `math.sqrt` (line 30): raises ValueError "math domain error" on a
negative argument; exact on rational squares; an irrational result is
outside the rational model (no claim depends on it). -/
def sqrtQ (x : ℚ) : Except CalcErr ℚ :=
  if x < 0 then Except.error (CalcErr.valueErr ("math domain error"))
  else
    let n := Nat.sqrt x.num.toNat
    let d := Nat.sqrt x.den
    if (n * n : ℤ) = x.num ∧ d * d = x.den then Except.ok ((n : ℚ) / (d : ℚ))
    else Except.error (CalcErr.otherErr ("irrational square root is outside the rational model"))

/-- `math.log10` (line 31): ValueError "math domain error" for a
non-positive argument; otherwise irrational for almost every input and
outside the rational model. -/
def logQ (x : ℚ) : Except CalcErr ℚ :=
  if x ≤ 0 then Except.error (CalcErr.valueErr ("math domain error"))
  else Except.error (CalcErr.otherErr ("log is outside the rational model"))

/-- `math.log` (line 32); see `logQ`. -/
def lnQ (x : ℚ) : Except CalcErr ℚ :=
  if x ≤ 0 then Except.error (CalcErr.valueErr ("math domain error"))
  else Except.error (CalcErr.otherErr ("ln is outside the rational model"))

/-- Built-in `abs` (line 33). -/
def absQ (x : ℚ) : Except CalcErr ℚ := Except.ok |x|

/-- Built-in one-argument `round` (line 34): round half to even. -/
def pyRoundInt (q : ℚ) : ℤ :=
  let n := ⌊q⌋
  let r := q - (n : ℚ)
  if r < 1 / 2 then n
  else if (1 : ℚ) / 2 < r then n + 1
  else if 2 ∣ n then n else n + 1

/-- `round` as a calculator function (line 34). -/
def roundQ (x : ℚ) : Except CalcErr ℚ := Except.ok ((pyRoundInt x : ℤ) : ℚ)

/-- The `Calculator` object: the three symbol tables built by
`__init__` (lines 14-40).  Python dicts preserve insertion order, so
each table is an association list in source order. -/
structure Calculator where
  operators : List (String × Nat × (ℚ → ℚ → Except CalcErr ℚ))
  functions : List (String × (ℚ → Except CalcErr ℚ))
  constants : List (String × String)

/-- The keys of `self.operators`. -/
def opNames (c : Calculator) : List String := c.operators.map Prod.fst

/-- The keys of `self.functions`. -/
def funcNames (c : Calculator) : List String := c.functions.map Prod.fst

/-- `self.operators[tok][0]`, the precedence (0 when absent; every use
in the source is guarded by a membership test). -/
def opPrec (c : Calculator) (tok : String) : Nat :=
  match List.find? (fun p => p.1 == tok) c.operators with
  | some p => p.2.1
  | none => 0

/-- `self.operators[tok][1](a, b)`, the operator's binary function. -/
def applyOp (c : Calculator) (tok : String) (a b : ℚ) : Except CalcErr ℚ :=
  match List.find? (fun p => p.1 == tok) c.operators with
  | some p => p.2.2 a b
  | none => Except.error (CalcErr.otherErr ("unknown operator"))

/-- `self.functions[tok](a)`, the named unary function. -/
def applyFn (c : Calculator) (tok : String) (a : ℚ) : Except CalcErr ℚ :=
  match List.find? (fun p => p.1 == tok) c.functions with
  | some p => p.2 a
  | none => Except.error (CalcErr.otherErr ("unknown function"))

/-- The calculator instance built by `Calculator.__init__` (lines
14-40).  The constant replacement strings are Python's `str(math.pi)`
and `str(math.e)`. -/
def theCalc : Calculator where
  operators :=
    [("+", 1, addQ), ("-", 1, subQ), ("*", 2, mulQ), ("/", 2, divQ),
     ("//", 2, fdivQ), ("%", 2, modQ), ("^", 3, powQ), ("**", 3, powQ)]
  functions :=
    [("sin", sinQ), ("cos", cosQ), ("tan", tanQ), ("sqrt", sqrtQ),
     ("log", logQ), ("ln", lnQ), ("abs", absQ), ("round", roundQ)]
  constants :=
    [("pi", "3.141592653589793"), ("e", "2.718281828459045")]

/-- `Calculator.tokenize` (lines 42-51): substitute each constant
textually, delete spaces, then scan with the token regex. -/
def tokenize (c : Calculator) (s : String) : List String :=
  let replaced := c.constants.foldl (fun l p => pyReplace l p.1.data p.2.data) s.data
  scanTokens (pyReplace replaced [' '] [])

/-- Is the token different from the open-parenthesis marker?  The loop
conditions of lines 64-65 and 73. -/
def notParen (t : String) : Bool := t != "("

/-- The while loop of lines 64-68: pop stack tops that are operators of
precedence greater than or equal to the incoming operator's into the
output, stopping at an open parenthesis or a non-operator. -/
def popWhile (c : Calculator) (tok : String) (out : List String) :
    List String → List String × List String
  | [] => (out, [])
  | top :: rest =>
    if top ≠ "(" ∧ top ∈ opNames c ∧ opPrec c tok ≤ opPrec c top then
      popWhile c tok (out ++ [top]) rest
    else (out, top :: rest)

/-- One iteration of the token loop of `infix_to_postfix` (lines
58-78), acting on the pair (output, operator stack); the stack top is
the list head.  The branch order is the source's elif chain: number,
function name, operator, open parenthesis, close parenthesis, and any
other token is silently dropped (the loop has no else branch). -/
def convStep (c : Calculator) (acc : List String × List String) (tok : String) :
    List String × List String :=
  let out := acc.1
  let stk := acc.2
  if is_number tok then (out ++ [tok], stk)
  else if tok ∈ funcNames c then (out, tok :: stk)
  else if tok ∈ opNames c then
    ((popWhile c tok out stk).1, tok :: (popWhile c tok out stk).2)
  else if tok = "(" then (out, tok :: stk)
  else if tok = ")" then
    let out2 := out ++ stk.takeWhile notParen
    let rest := stk.dropWhile notParen
    match rest with
    | [] => (out2, [])
    | x :: r2 =>
      if x = "(" then
        match r2 with
        | [] => (out2, [])
        | f :: r4 => if f ∈ funcNames c then (out2 ++ [f], r4) else (out2, r2)
      else if x ∈ funcNames c then (out2 ++ [x], r2)
      else (out2, x :: r2)
  else (out, stk)

/-- `Calculator.infix_to_postfix` (lines 53-83): fold the token loop
over the tokens, then drain the remaining stack into the output in pop
order (lines 80-81). -/
def toRPN (c : Calculator) (ts : List String) : List String :=
  let acc := ts.foldl (convStep c) ([], [])
  acc.1 ++ acc.2

/-- Quote character (Python's f-string quotes around the token). -/
def qch : String := String.mk [Char.ofNat 39]

/-- Message of line 94. -/
def underflowMsg (t : String) : String :=
  "Invalid expression: not enough operands for " ++ qch ++ t ++ qch

/-- Message of line 101. -/
def argMsg (t : String) : String :=
  "Invalid expression: not enough arguments for " ++ qch ++ t ++ qch

/-- The token loop of `evaluate_postfix` (lines 89-104) over an operand
stack whose head is the top.  A number is pushed (`is_number t` is by
definition `(pyFloat t).isSome`, so the match on `pyFloat tok` is the
source's is_number test followed by `float(token)`); an operator pops
`b` then `a` and applies `a OP b`, raising ValueError when fewer than
two operands are on the stack; a function name pops one argument,
raising ValueError on an empty stack; any other token is skipped (the
chain has no else branch). -/
def evalGo (c : Calculator) : List String → List ℚ → Except CalcErr (List ℚ)
  | [], st => Except.ok st
  | tok :: ts, st =>
    match pyFloat tok with
    | some v => evalGo c ts (v :: st)
    | none =>
      if tok ∈ opNames c then
        match st with
        | b :: a :: rest =>
          match applyOp c tok a b with
          | Except.ok r => evalGo c ts (r :: rest)
          | Except.error e => Except.error e
        | _ => Except.error (CalcErr.valueErr (underflowMsg tok))
      else if tok ∈ funcNames c then
        match st with
        | a :: rest =>
          match applyFn c tok a with
          | Except.ok r => evalGo c ts (r :: rest)
          | Except.error e => Except.error e
        | [] => Except.error (CalcErr.valueErr (argMsg tok))
      else evalGo c ts st

/-- `Calculator.evaluate_postfix` (lines 85-109): run the token loop on
an empty stack; exactly one value must remain (lines 106-107), any
other final count raises ValueError "Invalid expression". -/
def evalRPN (c : Calculator) (ts : List String) : Except CalcErr ℚ :=
  match evalGo c ts [] with
  | Except.ok [v] => Except.ok v
  | Except.ok _ => Except.error (CalcErr.valueErr ("Invalid expression"))
  | Except.error e => Except.error e

/-- The result formatting of lines 130-133: an integral float becomes
`int(result)`, anything else is `round(result, 10)` (half to even at
the tenth decimal). -/
def round10 (q : ℚ) : ℚ := ((pyRoundInt (q * 10 ^ 10) : ℤ) : ℚ) / 10 ^ 10

/-- `formatVal q` is the value `calculate` returns on success. -/
def formatVal (q : ℚ) : PyNum :=
  if q.den = 1 then PyNum.int q.num else PyNum.float (round10 q)

/-- `Calculator.calculate` (lines 119-140): empty or whitespace-only
input gets its own message; otherwise run the pipeline and classify any
fault — ZeroDivisionError, then ValueError with its message, then any
other exception — exactly as the except clauses of lines 135-140. -/
def calculate (c : Calculator) (s : String) : CalcOutput :=
  if pyStrip s.data = [] then CalcOutput.str ("Error: Empty expression")
  else
    match evalRPN c (toRPN c (tokenize c s)) with
    | Except.ok r => CalcOutput.num (formatVal r)
    | Except.error CalcErr.zeroDivision => CalcOutput.str ("Error: Division by zero")
    | Except.error (CalcErr.valueErr m) => CalcOutput.str ("Error: " ++ m)
    | Except.error (CalcErr.otherErr m) =>
      CalcOutput.str ("Error: Invalid expression - " ++ m)

/-- State-passing form of `calculate`: a Python method receives `self`
and could mutate it; `calculate` and everything it calls only read the
tables and never assign an attribute, so the embedding returns `self`
unchanged next to the result. -/
def calculateM (c : Calculator) (s : String) : Calculator × CalcOutput :=
  (c, calculate c s)

/-- Modelled from the spec: the reference evaluator for §8's property
"for all valid arithmetic expressions with only + - * / and parentheses,
evaluation with standard precedence must match a reference evaluator".
`Derives l ts v` says the token list `ts` is produced by grammar level
`l` with value `v`, where level 1 is an additive expression, level 2 a
multiplicative term, and level 3 a factor (a number literal or a
parenthesised expression); the left operand of a binary node sits at
the operator's own level and the right operand one level higher, which
is exactly left associativity with multiplication binding tighter than
addition.  Division requires a nonzero divisor so that the reference
value exists. -/
inductive Derives : ℕ → List String → ℚ → Prop where
  | num : ∀ (s : String) (v : ℚ), pyFloat s = some v → Derives 3 [s] v
  | paren : ∀ ts v, Derives 1 ts v → Derives 3 ("(" :: ts ++ [")"]) v
  | ofFactor : ∀ ts v, Derives 3 ts v → Derives 2 ts v
  | ofTerm : ∀ ts v, Derives 2 ts v → Derives 1 ts v
  | mul : ∀ t1 v1 t2 v2, Derives 2 t1 v1 → Derives 3 t2 v2 →
      Derives 2 (t1 ++ "*" :: t2) (v1 * v2)
  | div : ∀ t1 v1 t2 v2, Derives 2 t1 v1 → Derives 3 t2 v2 → v2 ≠ 0 →
      Derives 2 (t1 ++ "/" :: t2) (v1 / v2)
  | add : ∀ t1 v1 t2 v2, Derives 1 t1 v1 → Derives 2 t2 v2 →
      Derives 1 (t1 ++ "+" :: t2) (v1 + v2)
  | sub : ∀ t1 v1 t2 v2, Derives 1 t1 v1 → Derives 2 t2 v2 →
      Derives 1 (t1 ++ "-" :: t2) (v1 - v2)

/-- Stack entries the converter can hold while processing the `Derives`
grammar: open parentheses and operators only (no function names). -/
def StackOK (S : List String) : Prop := ∀ t ∈ S, t = "(" ∨ t ∈ opNames theCalc

/-- Precondition for feeding a level-`l` phrase to the converter: the
stack top must not be popped by an operator of precedence `l` or more,
so it is an open parenthesis or an operator of lower precedence. -/
def Guard (l : ℕ) : List String → Prop
  | [] => True
  | x :: _ => x = "(" ∨ (x ∈ opNames theCalc ∧ opPrec theCalc x < l)

/-- Stop condition of the pop loop for incoming operator `tok`. -/
def Stops (tok : String) : List String → Prop
  | [] => True
  | x :: _ => x = "(" ∨ x ∉ opNames theCalc ∨ opPrec theCalc x < opPrec theCalc tok

theorem opNames_eq : opNames theCalc = ["+", "-", "*", "/", "//", "%", "^", "**"] := rfl

theorem funcNames_eq :
    funcNames theCalc = ["sin", "cos", "tan", "sqrt", "log", "ln", "abs", "round"] := rfl

theorem op_ne_paren {t : String} (h : t ∈ opNames theCalc) : t ≠ "(" := by
  rw [opNames_eq] at h
  fin_cases h <;> decide

theorem op_not_func {t : String} (h : t ∈ opNames theCalc) : t ∉ funcNames theCalc := by
  rw [opNames_eq] at h
  fin_cases h <;> decide

theorem op_not_number {t : String} (h : t ∈ opNames theCalc) : is_number t = false := by
  rw [opNames_eq] at h
  fin_cases h <;> decide

theorem op_pyFloat {t : String} (h : t ∈ opNames theCalc) : pyFloat t = none := by
  rw [opNames_eq] at h
  fin_cases h <;> decide

theorem func_pyFloat {t : String} (h : t ∈ funcNames theCalc) : pyFloat t = none := by
  rw [funcNames_eq] at h
  fin_cases h <;> decide

theorem func_not_op {t : String} (h : t ∈ funcNames theCalc) : t ∉ opNames theCalc := by
  rw [funcNames_eq] at h
  fin_cases h <;> decide

theorem op_prec_pos {t : String} (h : t ∈ opNames theCalc) : 1 ≤ opPrec theCalc t := by
  rw [opNames_eq] at h
  fin_cases h <;> decide

/-- The pop loop moves exactly the leading operators of precedence at
least that of `tok` to the output and leaves the rest of the stack. -/
theorem popWhile_spec (tok : String) :
    ∀ (R : List String),
      (∀ t ∈ R, t ∈ opNames theCalc ∧ opPrec theCalc tok ≤ opPrec theCalc t) →
      ∀ S, Stops tok S → ∀ out,
        popWhile theCalc tok out (R ++ S) = (out ++ R, S) := by
  intro R
  induction R with
  | nil =>
    intro _ S hS out
    cases S with
    | nil => simp [popWhile]
    | cons x r =>
      have hx : ¬(x ≠ "(" ∧ x ∈ opNames theCalc ∧ opPrec theCalc tok ≤ opPrec theCalc x) := by
        rcases hS with h1 | h2 | h3
        · exact fun hc => hc.1 h1
        · exact fun hc => h2 hc.2.1
        · exact fun hc => absurd hc.2.2 (not_le.mpr h3)
      simp [popWhile, hx]
  | cons t R' ih =>
    intro hR S hS out
    have ht := hR t (List.mem_cons_self t R')
    have hcond : t ≠ "(" ∧ t ∈ opNames theCalc ∧ opPrec theCalc tok ≤ opPrec theCalc t :=
      ⟨op_ne_paren ht.1, ht.1, ht.2⟩
    have hR' : ∀ u ∈ R', u ∈ opNames theCalc ∧ opPrec theCalc tok ≤ opPrec theCalc u :=
      fun u hu => hR u (List.mem_cons_of_mem t hu)
    calc popWhile theCalc tok out ((t :: R') ++ S)
        = popWhile theCalc tok (out ++ [t]) (R' ++ S) := by
          simp [popWhile, hcond]
      _ = (out ++ [t] ++ R', S) := ih hR' S hS (out ++ [t])
      _ = (out ++ t :: R', S) := by simp

/-- A number token goes straight to the output (line 60). -/
theorem convStep_number {tok : String} (out stk : List String) (h : is_number tok = true) :
    convStep theCalc (out, stk) tok = (out ++ [tok], stk) := by
  simp [convStep, h]

/-- An operator token runs the pop loop and is then pushed (lines 63-69). -/
theorem convStep_op {tok : String} (out stk : List String)
    (h : tok ∈ opNames theCalc) :
    convStep theCalc (out, stk) tok =
      ((popWhile theCalc tok out stk).1, tok :: (popWhile theCalc tok out stk).2) := by
  simp [convStep, op_not_number h, op_not_func h, h]

/-- An open parenthesis is pushed (lines 70-71). -/
theorem convStep_open (out stk : List String) :
    convStep theCalc (out, stk) "(" = (out, "(" :: stk) := by
  have h1 : is_number "(" = false := by decide
  have h2 : "(" ∉ funcNames theCalc := by decide
  have h3 : "(" ∉ opNames theCalc := by decide
  simp [convStep, h1, h2, h3]

/-- Splitting the stack at the first open parenthesis. -/
theorem splitParen (S : List String) :
    ∀ (R : List String), (∀ t ∈ R, t ≠ "(") →
      (R ++ "(" :: S).takeWhile notParen = R ∧
      (R ++ "(" :: S).dropWhile notParen = "(" :: S := by
  intro R
  induction R with
  | nil => intro _; constructor <;> simp [List.takeWhile, List.dropWhile, notParen]
  | cons t R' ih =>
    intro hR
    have ht : notParen t = true := by
      simp [notParen]
      exact hR t (List.mem_cons_self t R')
    have hR' : ∀ u ∈ R', u ≠ "(" := fun u hu => hR u (List.mem_cons_of_mem t hu)
    constructor
    · simp only [List.cons_append, List.takeWhile_cons, ht, if_true]
      rw [(ih hR').1]
    · simp only [List.cons_append, List.dropWhile_cons, ht, if_true]
      exact (ih hR').2

/-- A close parenthesis pops the pending operators `R` into the output,
discards the matching open parenthesis, and (the stack holding no
function name here) leaves `S` (lines 72-78). -/
theorem convStep_close (out : List String) (R S : List String)
    (hR : ∀ t ∈ R, t ∈ opNames theCalc) (hS : StackOK S) :
    convStep theCalc (out, R ++ "(" :: S) ")" = (out ++ R, S) := by
  have hIsNum : is_number ")" = false := by decide
  have h2 : ")" ∉ funcNames theCalc := by decide
  have h3 : ")" ∉ opNames theCalc := by decide
  have h4 : (")" : String) ≠ "(" := by decide
  have hsplit := splitParen S R (fun t ht => op_ne_paren (hR t ht))
  simp only [convStep, hIsNum, Bool.false_eq_true, if_false, h2, h3, h4,
    if_true, hsplit.1, hsplit.2, ite_true, ite_false, if_neg, if_pos]
  cases S with
  | nil => simp
  | cons f S' =>
    have : f ∉ funcNames theCalc := by
      rcases hS f (List.mem_cons_self f S') with h | h
      · subst h; decide
      · exact op_not_func h
    simp [this]

/-- A number token pushes its value (lines 90-91). -/
theorem evalGo_num {tok : String} {v : ℚ} (ts : List String) (st : List ℚ)
    (h : pyFloat tok = some v) :
    evalGo theCalc (tok :: ts) st = evalGo theCalc ts (v :: st) := by
  simp [evalGo, h]

/-- An operator token with two stacked operands applies `a OP b`
(lines 92-98). -/
theorem evalGo_op_ok {tok : String} {a b r : ℚ} (ts : List String) (st : List ℚ)
    (h1 : tok ∈ opNames theCalc) (h2 : applyOp theCalc tok a b = Except.ok r) :
    evalGo theCalc (tok :: ts) (b :: a :: st) = evalGo theCalc ts (r :: st) := by
  simp [evalGo, op_pyFloat h1, h1, h2]

/-- Successful evaluation composes over concatenation of postfix
programs. -/
theorem evalGo_append (A : List String) :
    ∀ (B : List String) (st st' : List ℚ),
      evalGo theCalc A st = Except.ok st' →
      evalGo theCalc (A ++ B) st = evalGo theCalc B st' := by
  induction A with
  | nil =>
    intro B st st' h
    simp [evalGo] at h
    subst h
    rfl
  | cons tok A' ih =>
    intro B st st' h
    rw [List.cons_append]
    cases hpf : pyFloat tok with
    | some v =>
      rw [evalGo_num A' st hpf] at h
      rw [evalGo_num (A' ++ B) st hpf]
      exact ih B _ st' h
    | none =>
      by_cases hop : tok ∈ opNames theCalc
      · match st with
        | [] => simp [evalGo, hpf, hop] at h
        | [x] => simp [evalGo, hpf, hop] at h
        | b :: a :: rest =>
          cases hap : applyOp theCalc tok a b with
          | ok r =>
            rw [evalGo_op_ok A' rest hop hap] at h
            rw [evalGo_op_ok (A' ++ B) rest hop hap]
            exact ih B _ st' h
          | error e => simp [evalGo, hpf, hop, hap] at h
      · by_cases hfn : tok ∈ funcNames theCalc
        · match st with
          | [] => simp [evalGo, hpf, hop, hfn] at h
          | a :: rest =>
            cases hap : applyFn theCalc tok a with
            | ok r =>
              simp only [evalGo, hpf, hop, if_false, hfn, if_true, hap] at h ⊢
              exact ih B _ st' h
            | error e => simp [evalGo, hpf, hop, hfn, hap] at h
        · simp only [evalGo, hpf, hop, hfn, if_false] at h ⊢
          exact ih B st st' h

theorem guard_mono {l l' : ℕ} (h : l ≤ l') : ∀ S, Guard l S → Guard l' S := by
  intro S hG
  cases S with
  | nil => trivial
  | cons x r =>
    rcases hG with h1 | ⟨h1, h2⟩
    · exact Or.inl h1
    · exact Or.inr ⟨h1, lt_of_lt_of_le h2 h⟩

theorem stops_of_guard {tok : String} {l : ℕ} (hl : opPrec theCalc tok = l) :
    ∀ S, Guard l S → Stops tok S := by
  intro S hG
  cases S with
  | nil => trivial
  | cons x r =>
    rcases hG with h1 | ⟨h1, h2⟩
    · exact Or.inl h1
    · exact Or.inr (Or.inr (by rw [hl]; exact h2))

/-- Soundness of the shunting-yard pass against the reference grammar:
feeding a derivable phrase to the token loop appends a block `P` to the
output and a block `R` of pending operators (all of precedence at least
the phrase's level) to the stack, and the flattened program `P ++ R`
pushes exactly the reference value onto any operand stack. -/
theorem conv_sound {l : ℕ} {ts : List String} {v : ℚ} (h : Derives l ts v) :
    ∀ out S, StackOK S → Guard l S →
      ∃ P R, List.foldl (convStep theCalc) (out, S) ts = (out ++ P, R ++ S) ∧
        (∀ t ∈ R, t ∈ opNames theCalc ∧ l ≤ opPrec theCalc t) ∧
        (∀ st, evalGo theCalc (P ++ R) st = Except.ok (v :: st)) := by
  induction h with
  | num s v hs =>
    intro out S _ _
    refine ⟨[s], [], ?_, by simp, ?_⟩
    · have hn : is_number s = true := by simp [is_number, hs]
      simp [List.foldl_cons, convStep_number out S hn]
    · intro st
      rw [List.append_nil, evalGo_num [] st hs]
      rfl
  | paren ts v hd ih =>
    intro out S hS hG
    have hS' : StackOK ("(" :: S) := by
      intro t ht
      rcases List.mem_cons.mp ht with h | h
      · exact Or.inl h
      · exact hS t h
    obtain ⟨P1, R1, hfold, hR1, hsem⟩ := ih out ("(" :: S) hS' (Or.inl rfl)
    refine ⟨P1 ++ R1, [], ?_, by simp, ?_⟩
    · rw [List.cons_append, List.foldl_cons, convStep_open,
        List.foldl_append, hfold, List.foldl_cons, List.foldl_nil,
        convStep_close (out ++ P1) R1 S (fun t ht => (hR1 t ht).1) hS]
      simp
    · intro st
      rw [List.append_nil]
      exact hsem st
  | ofFactor ts v hd ih =>
    intro out S hS hG
    obtain ⟨P, R, h1, h2, h3⟩ := ih out S hS (guard_mono (by norm_num) S hG)
    exact ⟨P, R, h1, fun t ht => ⟨(h2 t ht).1, le_trans (by norm_num) (h2 t ht).2⟩, h3⟩
  | ofTerm ts v hd ih =>
    intro out S hS hG
    obtain ⟨P, R, h1, h2, h3⟩ := ih out S hS (guard_mono (by norm_num) S hG)
    exact ⟨P, R, h1, fun t ht => ⟨(h2 t ht).1, le_trans (by norm_num) (h2 t ht).2⟩, h3⟩
  | mul t1 v1 t2 v2 hd1 hd2 ih1 ih2 =>
    intro out S hS hG
    obtain ⟨P1, R1, hf1, hR1, hs1⟩ := ih1 out S hS hG
    have hpopArg : ∀ t ∈ R1, t ∈ opNames theCalc ∧
        opPrec theCalc "*" ≤ opPrec theCalc t :=
      fun t ht => ⟨(hR1 t ht).1, (hR1 t ht).2⟩
    have hpop := popWhile_spec "*" R1 hpopArg S (stops_of_guard rfl S hG) (out ++ P1)
    have hstep : convStep theCalc (out ++ P1, R1 ++ S) "*" = (out ++ P1 ++ R1, "*" :: S) := by
      rw [convStep_op _ _ (by decide), hpop]
    have hS2 : StackOK ("*" :: S) := by
      intro t ht
      rcases List.mem_cons.mp ht with h | h
      · exact Or.inr (h ▸ (by decide))
      · exact hS t h
    have hG2 : Guard 3 ("*" :: S) := Or.inr ⟨by decide, by decide⟩
    obtain ⟨P2, R2, hf2, hR2, hs2⟩ := ih2 (out ++ P1 ++ R1) ("*" :: S) hS2 hG2
    refine ⟨P1 ++ R1 ++ P2, R2 ++ ["*"], ?_, ?_, ?_⟩
    · rw [List.foldl_append, hf1, List.foldl_cons, hstep, hf2]
      simp [List.append_assoc]
    · intro t ht
      rcases List.mem_append.mp ht with h | h
      · exact ⟨(hR2 t h).1, le_trans (by norm_num) (hR2 t h).2⟩
      · have ht' : t = "*" := List.mem_singleton.mp h
        subst ht'
        exact ⟨by decide, by decide⟩
    · intro st
      have e1 : (P1 ++ R1 ++ P2) ++ (R2 ++ ["*"]) = (P1 ++ R1) ++ ((P2 ++ R2) ++ ["*"]) := by
        simp [List.append_assoc]
      have e2 := evalGo_append (P1 ++ R1) ((P2 ++ R2) ++ ["*"]) st (v1 :: st) (hs1 st)
      have e3 := evalGo_append (P2 ++ R2) ["*"] (v1 :: st) (v2 :: v1 :: st) (hs2 (v1 :: st))
      have e4 : evalGo theCalc ["*"] (v2 :: v1 :: st) = Except.ok ((v1 * v2) :: st) := by
        rw [evalGo_op_ok [] st (by decide)
          (show applyOp theCalc "*" v1 v2 = Except.ok (v1 * v2) from rfl)]
        rfl
      rw [e1, e2, e3, e4]
  | div t1 v1 t2 v2 hd1 hd2 hv2 ih1 ih2 =>
    intro out S hS hG
    obtain ⟨P1, R1, hf1, hR1, hs1⟩ := ih1 out S hS hG
    have hpopArg : ∀ t ∈ R1, t ∈ opNames theCalc ∧
        opPrec theCalc "/" ≤ opPrec theCalc t :=
      fun t ht => ⟨(hR1 t ht).1, (hR1 t ht).2⟩
    have hpop := popWhile_spec "/" R1 hpopArg S (stops_of_guard rfl S hG) (out ++ P1)
    have hstep : convStep theCalc (out ++ P1, R1 ++ S) "/" = (out ++ P1 ++ R1, "/" :: S) := by
      rw [convStep_op _ _ (by decide), hpop]
    have hS2 : StackOK ("/" :: S) := by
      intro t ht
      rcases List.mem_cons.mp ht with h | h
      · exact Or.inr (h ▸ (by decide))
      · exact hS t h
    have hG2 : Guard 3 ("/" :: S) := Or.inr ⟨by decide, by decide⟩
    obtain ⟨P2, R2, hf2, hR2, hs2⟩ := ih2 (out ++ P1 ++ R1) ("/" :: S) hS2 hG2
    refine ⟨P1 ++ R1 ++ P2, R2 ++ ["/"], ?_, ?_, ?_⟩
    · rw [List.foldl_append, hf1, List.foldl_cons, hstep, hf2]
      simp [List.append_assoc]
    · intro t ht
      rcases List.mem_append.mp ht with h | h
      · exact ⟨(hR2 t h).1, le_trans (by norm_num) (hR2 t h).2⟩
      · have ht' : t = "/" := List.mem_singleton.mp h
        subst ht'
        exact ⟨by decide, by decide⟩
    · intro st
      have e1 : (P1 ++ R1 ++ P2) ++ (R2 ++ ["/"]) = (P1 ++ R1) ++ ((P2 ++ R2) ++ ["/"]) := by
        simp [List.append_assoc]
      have e2 := evalGo_append (P1 ++ R1) ((P2 ++ R2) ++ ["/"]) st (v1 :: st) (hs1 st)
      have e3 := evalGo_append (P2 ++ R2) ["/"] (v1 :: st) (v2 :: v1 :: st) (hs2 (v1 :: st))
      have e4 : evalGo theCalc ["/"] (v2 :: v1 :: st) = Except.ok ((v1 / v2) :: st) := by
        rw [evalGo_op_ok [] st (by decide)
          (show applyOp theCalc "/" v1 v2 = Except.ok (v1 / v2) by
            show divQ v1 v2 = _
            simp [divQ, hv2])]
        rfl
      rw [e1, e2, e3, e4]
  | add t1 v1 t2 v2 hd1 hd2 ih1 ih2 =>
    intro out S hS hG
    obtain ⟨P1, R1, hf1, hR1, hs1⟩ := ih1 out S hS hG
    have hpopArg : ∀ t ∈ R1, t ∈ opNames theCalc ∧
        opPrec theCalc "+" ≤ opPrec theCalc t :=
      fun t ht => ⟨(hR1 t ht).1, (hR1 t ht).2⟩
    have hpop := popWhile_spec "+" R1 hpopArg S (stops_of_guard rfl S hG) (out ++ P1)
    have hstep : convStep theCalc (out ++ P1, R1 ++ S) "+" = (out ++ P1 ++ R1, "+" :: S) := by
      rw [convStep_op _ _ (by decide), hpop]
    have hS2 : StackOK ("+" :: S) := by
      intro t ht
      rcases List.mem_cons.mp ht with h | h
      · exact Or.inr (h ▸ (by decide))
      · exact hS t h
    have hG2 : Guard 2 ("+" :: S) := Or.inr ⟨by decide, by decide⟩
    obtain ⟨P2, R2, hf2, hR2, hs2⟩ := ih2 (out ++ P1 ++ R1) ("+" :: S) hS2 hG2
    refine ⟨P1 ++ R1 ++ P2, R2 ++ ["+"], ?_, ?_, ?_⟩
    · rw [List.foldl_append, hf1, List.foldl_cons, hstep, hf2]
      simp [List.append_assoc]
    · intro t ht
      rcases List.mem_append.mp ht with h | h
      · exact ⟨(hR2 t h).1, le_trans (by norm_num) (hR2 t h).2⟩
      · have ht' : t = "+" := List.mem_singleton.mp h
        subst ht'
        exact ⟨by decide, by decide⟩
    · intro st
      have e1 : (P1 ++ R1 ++ P2) ++ (R2 ++ ["+"]) = (P1 ++ R1) ++ ((P2 ++ R2) ++ ["+"]) := by
        simp [List.append_assoc]
      have e2 := evalGo_append (P1 ++ R1) ((P2 ++ R2) ++ ["+"]) st (v1 :: st) (hs1 st)
      have e3 := evalGo_append (P2 ++ R2) ["+"] (v1 :: st) (v2 :: v1 :: st) (hs2 (v1 :: st))
      have e4 : evalGo theCalc ["+"] (v2 :: v1 :: st) = Except.ok ((v1 + v2) :: st) := by
        rw [evalGo_op_ok [] st (by decide)
          (show applyOp theCalc "+" v1 v2 = Except.ok (v1 + v2) from rfl)]
        rfl
      rw [e1, e2, e3, e4]
  | sub t1 v1 t2 v2 hd1 hd2 ih1 ih2 =>
    intro out S hS hG
    obtain ⟨P1, R1, hf1, hR1, hs1⟩ := ih1 out S hS hG
    have hpopArg : ∀ t ∈ R1, t ∈ opNames theCalc ∧
        opPrec theCalc "-" ≤ opPrec theCalc t :=
      fun t ht => ⟨(hR1 t ht).1, (hR1 t ht).2⟩
    have hpop := popWhile_spec "-" R1 hpopArg S (stops_of_guard rfl S hG) (out ++ P1)
    have hstep : convStep theCalc (out ++ P1, R1 ++ S) "-" = (out ++ P1 ++ R1, "-" :: S) := by
      rw [convStep_op _ _ (by decide), hpop]
    have hS2 : StackOK ("-" :: S) := by
      intro t ht
      rcases List.mem_cons.mp ht with h | h
      · exact Or.inr (h ▸ (by decide))
      · exact hS t h
    have hG2 : Guard 2 ("-" :: S) := Or.inr ⟨by decide, by decide⟩
    obtain ⟨P2, R2, hf2, hR2, hs2⟩ := ih2 (out ++ P1 ++ R1) ("-" :: S) hS2 hG2
    refine ⟨P1 ++ R1 ++ P2, R2 ++ ["-"], ?_, ?_, ?_⟩
    · rw [List.foldl_append, hf1, List.foldl_cons, hstep, hf2]
      simp [List.append_assoc]
    · intro t ht
      rcases List.mem_append.mp ht with h | h
      · exact ⟨(hR2 t h).1, le_trans (by norm_num) (hR2 t h).2⟩
      · have ht' : t = "-" := List.mem_singleton.mp h
        subst ht'
        exact ⟨by decide, by decide⟩
    · intro st
      have e1 : (P1 ++ R1 ++ P2) ++ (R2 ++ ["-"]) = (P1 ++ R1) ++ ((P2 ++ R2) ++ ["-"]) := by
        simp [List.append_assoc]
      have e2 := evalGo_append (P1 ++ R1) ((P2 ++ R2) ++ ["-"]) st (v1 :: st) (hs1 st)
      have e3 := evalGo_append (P2 ++ R2) ["-"] (v1 :: st) (v2 :: v1 :: st) (hs2 (v1 :: st))
      have e4 : evalGo theCalc ["-"] (v2 :: v1 :: st) = Except.ok ((v1 - v2) :: st) := by
        rw [evalGo_op_ok [] st (by decide)
          (show applyOp theCalc "-" v1 v2 = Except.ok (v1 - v2) from rfl)]
        rfl
      rw [e1, e2, e3, e4]

theorem derives_ne_nil {l : ℕ} {ts : List String} {v : ℚ} (h : Derives l ts v) :
    ts ≠ [] := by
  induction h with
  | num s v _ => simp
  | paren ts v _ _ => simp
  | ofFactor _ _ _ ih => exact ih
  | ofTerm _ _ _ ih => exact ih
  | mul t1 v1 t2 v2 _ _ _ _ => simp
  | div t1 v1 t2 v2 _ _ _ _ _ => simp
  | add t1 v1 t2 v2 _ _ _ _ => simp
  | sub t1 v1 t2 v2 _ _ _ _ => simp

/-- A stripped-to-nothing string is all whitespace. -/
theorem pyStrip_nil_ws {l : List Char} (h : pyStrip l = []) : ∀ c ∈ l, pySpace c := by
  unfold pyStrip at h
  rw [List.reverse_eq_nil_iff, List.dropWhile_eq_nil_iff] at h
  have h2 : ∀ c ∈ l.dropWhile pySpace, pySpace c := by
    intro c hc
    exact h c (List.mem_reverse.mpr hc)
  intro c hc
  rw [← List.takeWhile_append_dropWhile (p := pySpace) (l := l)] at hc
  rcases List.mem_append.mp hc with h3 | h3
  · exact List.mem_takeWhile_imp h3
  · exact h2 c h3

/-- Whitespace characters start no token pattern and are not the first
character of either constant name. -/
theorem pySpace_props {c : Char} (h : pySpace c = true) :
    c ≠ 'p' ∧ c ≠ 'e' ∧ c.isDigit = false ∧ opChar c = false ∧ identStart c = false := by
  simp only [pySpace, Bool.or_eq_true, beq_iff_eq] at h
  rcases h with ((((h | h) | h) | h) | h) | h <;> subst h <;> decide

/-- `str.replace` is the identity when the first pattern character does
not occur in the text. -/
theorem pyRepGo_id {p : Char} (ps rep : List Char) :
    ∀ l : List Char, p ∉ l → pyRepGo (p :: ps) rep 0 l = l := by
  intro l
  induction l with
  | nil => intro _; rfl
  | cons a as ih =>
    intro hp
    have hpa : (p == a) = false := by
      simp only [beq_eq_false_iff_ne]
      intro he
      exact hp (he ▸ List.mem_cons_self a as)
    have hsw : startsWith (p :: ps) (a :: as) = false := by
      simp [startsWith, hpa]
    simp only [pyRepGo, hsw, Bool.false_eq_true, if_false, List.cons.injEq, true_and]
    exact ih (fun hm => hp (List.mem_cons_of_mem a hm))

/-- Every character surviving a replacement by the empty string was in
the original text. -/
theorem pyRepGo_subset (pat : List Char) {c : Char} :
    ∀ (l : List Char) (k : Nat), c ∈ pyRepGo pat [] k l → c ∈ l := by
  intro l
  induction l with
  | nil => intro k h; cases k <;> simp [pyRepGo] at h
  | cons a as ih =>
    intro k h
    match k with
    | k' + 1 =>
      simp only [pyRepGo] at h
      exact List.mem_cons_of_mem a (ih k' h)
    | 0 =>
      simp only [pyRepGo] at h
      by_cases hsw : startsWith pat (a :: as) = true
      · rw [if_pos hsw] at h
        simp only [List.nil_append] at h
        exact List.mem_cons_of_mem a (ih _ h)
      · rw [if_neg hsw] at h
        rcases List.mem_cons.mp h with h | h
        · exact h ▸ List.mem_cons_self a as
        · exact List.mem_cons_of_mem a (ih 0 h)

/-- The scanner yields no token from a text of unmatchable characters. -/
theorem scan_unmatch {l : List Char}
    (h : ∀ c ∈ l, c.isDigit = false ∧ opChar c = false ∧ identStart c = false) :
    scanTokens l = [] := by
  have hfold : l.foldl lexStep (LexMode.start, []) = (LexMode.start, []) := by
    induction l with
    | nil => rfl
    | cons c cs ih =>
      have hc := h c (List.mem_cons_self c cs)
      have hstep : lexStep (LexMode.start, []) c = (LexMode.start, []) := by
        simp [lexStep, startStep, hc.1, hc.2.1, hc.2.2]
      rw [List.foldl_cons, hstep]
      exact ih (fun u hu => h u (List.mem_cons_of_mem c hu))
  simp [scanTokens, hfold, flushTok]

/-- Tokenizing an all-whitespace string yields no tokens: the constant
substitutions find no occurrence, the space removal only removes
characters, and no remaining whitespace character starts a token. -/
theorem ws_tokenize_nil {s : String} (h : ∀ c ∈ s.data, pySpace c) :
    tokenize theCalc s = [] := by
  have hp : 'p' ∉ s.data := fun hm => (pySpace_props (h _ hm)).1 rfl
  have r1 : pyReplace s.data ("pi").data ("3.141592653589793").data = s.data :=
    pyRepGo_id _ _ s.data hp
  have he : 'e' ∉ s.data := fun hm => (pySpace_props (h _ hm)).2.1 rfl
  have r2 : pyReplace s.data ("e").data ("2.718281828459045").data = s.data :=
    pyRepGo_id _ _ s.data he
  show scanTokens (pyReplace (pyReplace (pyReplace s.data _ _) _ _) [' '] []) = []
  rw [r1, r2]
  apply scan_unmatch
  intro c hc
  have hcs : c ∈ s.data := pyRepGo_subset [' '] s.data 0 hc
  have hw := pySpace_props (h c hcs)
  exact ⟨hw.2.2.1, hw.2.2.2.1, hw.2.2.2.2⟩

/-- C1: refuted on the code.  The token regex of line 49 lists the
single-character class `[+\-*/()^%]` before the two-character
alternatives `\*\*` and `//`, and `re.findall` tries the alternatives
in order at each position, so `**` and `//` always lex as two
one-character tokens; consequently `calculate("2**3")` is a
MalformedExpression error, not 8, and likewise for `//`. -/
theorem digraphs_never_lex_as_one_token :
    tokenize theCalc ("2**3") = ["2", "*", "*", "3"] ∧
    tokenize theCalc ("4//2") = ["4", "/", "/", "2"] ∧
    calculate theCalc ("2**3") = CalcOutput.str ("Error: " ++ underflowMsg ("*")) ∧
    calculate theCalc ("4//2") = CalcOutput.str ("Error: " ++ underflowMsg ("/")) :=
  ⟨by decide, by decide, by decide, by decide⟩

/-- C2: `^` is left-associative: `calculate("2^3^2")` is 64, and in
general an incoming operator of precedence not above the stack top's
first pops that top into the output (the `>=` comparison of line 67)
and only then is pushed. -/
theorem exponentiation_left_assoc :
    calculate theCalc ("2^3^2") = CalcOutput.num (PyNum.int 64) ∧
    (∀ (out S : List String) (op1 op2 : String),
      op1 ∈ opNames theCalc → op2 ∈ opNames theCalc →
      opPrec theCalc op2 ≤ opPrec theCalc op1 →
      convStep theCalc (out, op1 :: S) op2 = convStep theCalc (out ++ [op1], S) op2) := by
  refine ⟨by decide, ?_⟩
  intro out S op1 op2 h1 h2 hle
  rw [convStep_op _ _ h2, convStep_op _ _ h2]
  have hstep : popWhile theCalc op2 out (op1 :: S) = popWhile theCalc op2 (out ++ [op1]) S := by
    simp [popWhile, op_ne_paren h1, h1, hle]
  rw [hstep]

/-- Witness for C2 at a concrete input. -/
theorem exponentiation_left_assoc_w :
    convStep theCalc ([], ["^"]) "^" = convStep theCalc (["^"], []) "^" :=
  exponentiation_left_assoc.2 [] [] ("^") ("^") (by decide) (by decide) (by decide)

/-- C3: on every token list derivable by the standard-precedence
reference grammar over numbers, `+ - * /` and balanced parentheses
(relation `Derives`), `calculate` returns exactly the formatted
reference value; in particular the two examples of §8. -/
theorem std_precedence_matches_reference :
    (∀ (s : String) (v : ℚ), Derives 1 (tokenize theCalc s) v →
      calculate theCalc s = CalcOutput.num (formatVal v)) ∧
    calculate theCalc ("2 + 3 * 4") = CalcOutput.num (PyNum.int 14) ∧
    calculate theCalc ("(2 + 3) * 4") = CalcOutput.num (PyNum.int 20) := by
  refine ⟨?_, by decide, by decide⟩
  intro s v hd
  have hne := derives_ne_nil hd
  have hstrip : ¬(pyStrip s.data = []) := fun hws =>
    hne (ws_tokenize_nil (pyStrip_nil_ws hws))
  obtain ⟨P, R, hfold, _, hsem⟩ :=
    conv_sound hd [] [] (fun t ht => absurd ht (List.not_mem_nil t)) trivial
  have hRPN : toRPN theCalc (tokenize theCalc s) = P ++ R := by
    unfold toRPN
    rw [hfold]
    simp
  have hEval : evalRPN theCalc (toRPN theCalc (tokenize theCalc s)) = Except.ok v := by
    rw [hRPN]
    unfold evalRPN
    rw [hsem []]
  unfold calculate
  rw [if_neg hstrip, hEval]

/-- Witness for C3 at a concrete input. -/
theorem std_precedence_matches_reference_w :
    calculate theCalc ("7") = CalcOutput.num (formatVal 7) := by
  have ht : tokenize theCalc ("7") = ["7"] := by decide
  have hd : Derives 1 (tokenize theCalc ("7")) 7 := by
    rw [ht]
    exact Derives.ofTerm _ _ (Derives.ofFactor _ _ (Derives.num ("7") 7 (by decide)))
  exact std_precedence_matches_reference.1 ("7") 7 hd

/-- C4: the three operators `/`, `//` and `%` raise the arithmetic
ZeroDivisionError on a zero right operand (no pre-check: the fault
comes out of the operator's lambda), and `calculate("5/0")` surfaces it
as the distinct division-by-zero message. -/
theorem division_by_zero_distinct :
    (∀ a : ℚ,
      applyOp theCalc ("/") a 0 = Except.error CalcErr.zeroDivision ∧
      applyOp theCalc ("//") a 0 = Except.error CalcErr.zeroDivision ∧
      applyOp theCalc ("%") a 0 = Except.error CalcErr.zeroDivision) ∧
    calculate theCalc ("5/0") = CalcOutput.str ("Error: Division by zero") := by
  refine ⟨?_, by decide⟩
  intro a
  refine ⟨?_, ?_, ?_⟩
  · show divQ a 0 = _
    simp [divQ]
  · show fdivQ a 0 = _
    simp [fdivQ]
  · show modQ a 0 = _
    simp [modQ]

/-- C5: the structural failure modes of postfix evaluation: an operator
with fewer than two stacked operands raises the "not enough operands"
ValueError, a function name on an empty stack raises "not enough
arguments", a final stack size other than one raises "invalid
expression", and `calculate("+")` surfaces the first as a
MalformedExpression message. -/
theorem malformed_postfix_errors :
    (∀ (tok : String) (ts : List String) (st : List ℚ),
      tok ∈ opNames theCalc → st.length < 2 →
      evalGo theCalc (tok :: ts) st = Except.error (CalcErr.valueErr (underflowMsg tok))) ∧
    (∀ (tok : String) (ts : List String),
      tok ∈ funcNames theCalc →
      evalGo theCalc (tok :: ts) [] = Except.error (CalcErr.valueErr (argMsg tok))) ∧
    (∀ (ts : List String) (st : List ℚ),
      evalGo theCalc ts [] = Except.ok st → st.length ≠ 1 →
      evalRPN theCalc ts = Except.error (CalcErr.valueErr ("Invalid expression"))) ∧
    calculate theCalc ("+") = CalcOutput.str ("Error: " ++ underflowMsg ("+")) := by
  refine ⟨?_, ?_, ?_, by decide⟩
  · intro tok ts st h1 h2
    rcases st with _ | ⟨x, _ | ⟨y, rest⟩⟩
    · simp [evalGo, op_pyFloat h1, h1]
    · simp [evalGo, op_pyFloat h1, h1]
    · simp only [List.length_cons] at h2
      omega
  · intro tok ts h1
    simp [evalGo, func_pyFloat h1, func_not_op h1, h1]
  · intro ts st h1 h2
    unfold evalRPN
    rw [h1]
    rcases st with _ | ⟨x, _ | ⟨y, rest⟩⟩
    · rfl
    · simp at h2
    · rfl

/-- Witness for C5 at concrete inputs. -/
theorem malformed_postfix_errors_w :
    evalGo theCalc ["*"] [] = Except.error (CalcErr.valueErr (underflowMsg ("*"))) ∧
    evalGo theCalc ["sqrt"] [] = Except.error (CalcErr.valueErr (argMsg ("sqrt"))) ∧
    evalRPN theCalc ["1", "1"] = Except.error (CalcErr.valueErr ("Invalid expression")) :=
  ⟨malformed_postfix_errors.1 ("*") [] [] (by decide) (by decide),
   malformed_postfix_errors.2.1 ("sqrt") [] (by decide),
   malformed_postfix_errors.2.2.1 ["1", "1"] [1, 1] (by rfl) (by decide)⟩

/-- C6: the formatter returns an exact integer exactly when the result
has no fractional part and otherwise the value rounded to ten decimal
places, so `calculate("2+2")` is the integer 4 and `calculate("4/2")`
the integer 2 although the quotient came from float division. -/
theorem formatter_integral_vs_rounded :
    (∀ q : ℚ,
      (q.den = 1 → formatVal q = PyNum.int q.num) ∧
      (q.den ≠ 1 → formatVal q = PyNum.float (round10 q))) ∧
    calculate theCalc ("2+2") = CalcOutput.num (PyNum.int 4) ∧
    calculate theCalc ("4/2") = CalcOutput.num (PyNum.int 2) := by
  refine ⟨?_, by decide, by decide⟩
  intro q
  constructor
  · intro h
    simp [formatVal, h]
  · intro h
    simp [formatVal, h]

/-- Witness for C6 at concrete inputs. -/
theorem formatter_integral_vs_rounded_w :
    formatVal (4 : ℚ) = PyNum.int (4 : ℚ).num ∧
    formatVal ((1 : ℚ) / 2) = PyNum.float (round10 ((1 : ℚ) / 2)) :=
  ⟨(formatter_integral_vs_rounded.1 4).1 (by decide),
   (formatter_integral_vs_rounded.1 ((1 : ℚ) / 2)).2 (by decide)⟩

/-- C7: `calculate` is total: every input string yields either a
number or an error message; no fault of tokenization, conversion or
evaluation escapes (the pipeline runs inside the try of lines 121-140
whose except clauses cover every exception). -/
theorem calculate_total (s : String) :
    (∃ n, calculate theCalc s = CalcOutput.num n) ∨
    (∃ m, calculate theCalc s = CalcOutput.str m) := by
  cases h : calculate theCalc s with
  | num n => exact Or.inl ⟨n, rfl⟩
  | str m => exact Or.inr ⟨m, rfl⟩

/-- C8: `calculate` is stateless and deterministic: the state-passing
form returns the calculator unchanged (each table identical), and a
second call on the returned state gives the identical result. -/
theorem calculate_stateless (c : Calculator) (s : String) :
    (calculateM c s).1 = c ∧
    (calculateM c s).1.operators = c.operators ∧
    (calculateM c s).1.functions = c.functions ∧
    (calculateM c s).1.constants = c.constants ∧
    (calculateM ((calculateM c s).1) s).2 = (calculateM c s).2 :=
  ⟨rfl, rfl, rfl, rfl, rfl⟩

/-- C9: the postfix evaluator silently skips any token that is neither
a number nor a known operator nor a known function name (the loop of
lines 89-104 has no else branch); the converter's final drain emits a
leftover `(` into the postfix sequence, so `calculate("(2+3")` returns
5 instead of an error. -/
theorem evaluator_skips_unknown_tokens :
    (∀ (tok : String) (ts : List String) (st : List ℚ),
      is_number tok = false → tok ∉ opNames theCalc → tok ∉ funcNames theCalc →
      evalGo theCalc (tok :: ts) st = evalGo theCalc ts st) ∧
    toRPN theCalc (tokenize theCalc ("(2+3")) = ["2", "3", "+", "("] ∧
    calculate theCalc ("(2+3") = CalcOutput.num (PyNum.int 5) := by
  refine ⟨?_, by decide, by decide⟩
  intro tok ts st h1 h2 h3
  have hpf : pyFloat tok = none := by
    rw [is_number] at h1
    exact Option.not_isSome_iff_eq_none.mp (by simp [h1])
  simp [evalGo, hpf, h2, h3]

/-- Witness for C9 at a concrete input. -/
theorem evaluator_skips_unknown_tokens_w :
    evalGo theCalc ["("] [] = evalGo theCalc [] [] :=
  evaluator_skips_unknown_tokens.1 ("(") [] [] (by decide) (by decide) (by decide)

/-- C10: a leading minus is lexed as a bare operator token, converted
to the postfix sequence `["5", "-"]`, and evaluation then underflows,
so `calculate("-5")` is the "not enough operands" MalformedExpression
error rather than -5. -/
theorem unary_minus_unsupported :
    tokenize theCalc ("-5") = ["-", "5"] ∧
    toRPN theCalc ["-", "5"] = ["5", "-"] ∧
    calculate theCalc ("-5") = CalcOutput.str ("Error: " ++ underflowMsg ("-")) :=
  ⟨by decide, by decide, by decide⟩

end TermCalc
